import Mathlib

/-!
Verification of the LTAR two-digit ammo/health display firmware
(`LTAR_Display.ino`) against its natural-language specification.

The firmware is a single-threaded Arduino control loop.  We embed it
shallowly:

* the millisecond clock `millis()` becomes an explicit `now : Nat`
  threaded through every state; an explicit `delay(d)` advances it by `d`;
* the three digital inputs (Fire, Shield, HitBeacon) become functions
  `Nat → Bool` giving the raw pin level at each millisecond, collected in
  an `Env` together with a per-poll overhead stream `cost : Nat → Nat`
  (the time every other instruction of a polling-loop iteration takes;
  on the real MCU this is microseconds, so theorems that need it assume
  a generous bound `cost k ≤ 400`);
* within one C statement sequence the several `millis()` reads are
  coalesced to a single `now` (the source is single threaded, so the
  read/update pairs are atomic);
* `digitalWrite` calls are collected into lists of `(pin, level)` pairs;
* the EEPROM becomes a function `Nat → Nat` from addresses to bytes;
* unbounded `while` loops become fuel-indexed recursions returning
  `Option`; `none` means the fuel ran out while the loop was still
  spinning, `some` is the state the source reaches when the loop exits.

All machine integers that matter are non-negative and tiny (`int` values
in [0,255], millisecond counts far below 2^31), so `Int`/`Nat` model them
exactly; no overflow is reachable in any theorem below.
-/

namespace LTAR

/-! ## Seven-segment renderer (`display_num`, lines 561–611)

`seg_array` is the source's 16-entry segment look-up table, `pinMap_digit1`
and `pinMap_digit2` the per-digit pin index tables (lines 137–157). -/

def seg_array : List Nat :=
  [0x3F, 0x06, 0x5B, 0x4F, 0x66, 0x6D, 0x7D, 0x07,
   0x7F, 0x67, 0x77, 0x7C, 0x39, 0x5E, 0x79, 0x71]

def pinMap_digit1 : List Nat := [10, 11, 4, 5, 6, 8, 9]

def pinMap_digit2 : List Nat := [15, 16, 0, 2, 3, 14, 1]

/-- The sequence of `digitalWrite (pin, level)` calls performed by
`display_num(disp_output)`.  Mirrors lines 561–611: BCD packing
`(n/10)*16 + n%10`, nibble extraction (`>> 4 & 0x0F` resp. `& 0x0F`,
written here as division/remainder, which agree on the non-negative
values every caller passes), then one write of bit `i` of each digit's
segment pattern to the `i`-th mapped pin, interleaved exactly as the
source loop does. -/
def display_num (disp_output : Int) : List (Nat × Bool) :=
  let bcd : Int := (disp_output / 10) * 16 + disp_output % 10
  let digit1 : Nat := ((bcd / 16) % 16).toNat
  let digit2 : Nat := (bcd % 16).toNat
  (List.range 7).flatMap (fun i =>
    [(pinMap_digit1.getD i 0, Nat.testBit (seg_array.getD digit1 0) i),
     (pinMap_digit2.getD i 0, Nat.testBit (seg_array.getD digit2 0) i)])

/-! ## Debounced input (`button_is_pressed`, lines 544–556)

`sig t` is the raw level of the polled line at millisecond `t`.  The
function returns the boolean result together with the time at which it
returns: an asserted first read costs the `delay(55)` settle wait, a
clear first read returns immediately. -/

def button_is_pressed (sig : Nat → Bool) (t : Nat) : Bool × Nat :=
  if sig t then
    (sig (t + 55), t + 55)
  else
    (false, t)

/-! ## Number-entry increments (`inc_health` / `inc_shield`, lines 408–440) -/

/-- `inc_health` on the value of the `health` global (the display side
effect is the new value itself and is covered by the display theorems). -/
def inc_health (health : Int) : Int :=
  if health < 99 then health + 1 else 1

/-- `inc_shield` on the value of the `shields_remaining` global. -/
def inc_shield (shields_remaining : Int) : Int :=
  if shields_remaining < 99 then shields_remaining + 1 else 1

/-! ## Persistent store (EEPROM) and the advanced-mode boot read
(lines 121–123, 203–215) -/

def ADVANCED_HEALTH_ADDRESS : Nat := 46

def ADVANCED_SHIELD_ADDRESS : Nat := 47

def EEPROM_write (st : Nat → Nat) (addr value : Nat) : Nat → Nat :=
  fun a => if a = addr then value else st a

/-- Lines 203–215 of `setup()`: read both slots; if either exceeds 99,
rewrite both slots to the defaults 30/10 and adopt the defaults in
memory; otherwise adopt the stored values.  Returns the (possibly
rewritten) store and the adopted `(health, shields_remaining)` pair. -/
def advanced_boot (st : Nat → Nat) : (Nat → Nat) × Int × Int :=
  let health : Int := st ADVANCED_HEALTH_ADDRESS
  let shields_remaining : Int := st ADVANCED_SHIELD_ADDRESS
  if health > 99 ∨ shields_remaining > 99 then
    (EEPROM_write (EEPROM_write st ADVANCED_HEALTH_ADDRESS 30)
       ADVANCED_SHIELD_ADDRESS 10, 30, 10)
  else
    (st, health, shields_remaining)

/-! ## Timed execution model

`Env` packages the three raw input lines as functions of the millisecond
clock plus the adversarial per-poll overhead stream `cost` (the time all
the non-`delay` instructions of one polling iteration take to execute).
`poll` is one evaluation of `button_is_pressed` inside a loop: the clock
first advances by the iteration overhead, then the debounce runs. -/

structure Env where
  fire : Nat → Bool
  shield : Nat → Bool
  beacon : Nat → Bool
  cost : Nat → Nat

def poll (sig : Nat → Bool) (cost : Nat → Nat) (t k : Nat) : Bool × Nat × Nat :=
  let r := button_is_pressed sig (t + cost k)
  (r.1, r.2, k + 1)

/-- The mutable state touched by `loop()` / `shield_handler()`: the
globals `health`, `shields_remaining`, `shield_timing` plus the clock
`now` (the value `millis()` would return) and the poll counter `k`. -/
structure M where
  health : Int
  shields_remaining : Int
  shield_timing : Nat
  now : Nat
  k : Nat
deriving Repr, DecidableEq

/-! ## Shield handler (`shield_handler` / `update_shield`, lines 466–538) -/

/-- `update_shield()` (lines 524–538): once at least 999 ms have elapsed
since the anchor `shield_timing`, subtract `elapsed / 999` from
`shields_remaining`, move the anchor to now, and display the new count
(returned as the trace). The source's several `millis()` reads within
the body are coalesced to the single `now` (single-threaded execution,
no interrupts). -/
def update_shield (s : M) : M × List Int :=
  if s.shield_timing + 999 ≤ s.now then
    let s2 := { s with
      shields_remaining :=
        s.shields_remaining - (((s.now - s.shield_timing) / 999 : Nat) : Int),
      shield_timing := s.now }
    (s2, [s2.shields_remaining])
  else
    (s, [])

/-- The two `update_shield`-bodied waits of `shield_handler` (lines
492–501).  `pol = true` is line 492 (`while (pressed && above min)`),
`pol = false` is line 498 (`while (!pressed && above min)`); the two
loops are otherwise identical.  `&&` short-circuiting is irrelevant here
because the second conjunct has no side effect. -/
def shield_wait_loop (e : Env) (pol : Bool) (shield_min : Int) :
    Nat → M → Option (M × List Int)
  | 0, _ => none
  | fuel + 1, s =>
    let p := poll e.shield e.cost s.now s.k
    let s1 := { s with now := p.2.1, k := p.2.2 }
    if p.1 = pol ∧ shield_min < s1.shields_remaining then
      let u := update_shield s1
      match shield_wait_loop e pol shield_min fuel u.1 with
      | none => none
      | some (s2, tr) => some (s2, u.2 ++ tr)
    else
      some (s1, [])

/-- The empty-bodied release wait of `shield_handler` (line 507):
`while (pressed && above min);`. -/
def shield_release_loop (e : Env) (shield_min : Int) : Nat → M → Option M
  | 0, _ => none
  | fuel + 1, s =>
    let p := poll e.shield e.cost s.now s.k
    let s1 := { s with now := p.2.1, k := p.2.2 }
    if p.1 = true ∧ shield_min < s1.shields_remaining then
      shield_release_loop e shield_min fuel s1
    else
      some s1

/-- `shield_handler()` (lines 466–521).  The returned trace is every
value `shields_remaining` takes during the activation, starting with the
value displayed at activation (the prior value) and including the
unguarded recomputation of line 504 and the final penalty decrement of
line 517. -/
def shield_handler (e : Env) (fuel : Nat) (s : M) : Option (M × List Int) :=
  let p := poll e.shield e.cost s.now s.k
  let s1 := { s with now := p.2.1, k := p.2.2 }
  if p.1 then
    let s2 := { s1 with shield_timing := s1.now }
    let shield_min : Int :=
      if s2.shields_remaining - 10 > 0 then s2.shields_remaining - 10 else 0
    match shield_wait_loop e true shield_min fuel s2 with
    | none => none
    | some (s3, tr1) =>
      match shield_wait_loop e false shield_min fuel s3 with
      | none => none
      | some (s4, tr2) =>
        let s5 := { s4 with shields_remaining :=
          s4.shields_remaining - (((s4.now - s4.shield_timing) / 999 : Nat) : Int) }
        match shield_release_loop e shield_min fuel s5 with
        | none => none
        | some s6 =>
          let s7 :=
            if shield_min < s6.shields_remaining then
              { s6 with shields_remaining := s6.shields_remaining - 1 }
            else s6
          some (s7, s2.shields_remaining ::
            (tr1 ++ tr2 ++ [s5.shields_remaining, s7.shields_remaining]))
  else
    some (s1, [])

/-- `b ≤ a` holds between adjacent elements of `a :: l`: the list never
increases, starting from `a`. -/
def NonInc : Int → List Int → Prop
  | _, [] => True
  | a, b :: l => b ≤ a ∧ NonInc b l

/-- Each `(time, value)` trace entry's value is `incFn` of the previous
value, starting from `v`: the counter steps through successive
increments. -/
def IncChain (incFn : Int → Int) : Int → List (Nat × Int) → Prop
  | _, [] => True
  | v, (_, w) :: l => w = incFn v ∧ IncChain incFn w l

/-- Every trace entry happens exactly 155 ms after the previous one,
the first one 155 ms after `t0`. -/
def GapsFrom : Nat → List (Nat × Int) → Prop
  | _, [] => True
  | t0, (t, _) :: l => t = t0 + 155 ∧ GapsFrom t l

/-! ## Normal-mode setup loop (`setup()`, lines 232–271) -/

/-- The state of the normal-mode wait-for-Fire loop: the two counters,
the locals `startup_timeout` / `timeout_max`, the clock and the poll
counter.  At entry to `setup()` these are `startup_timeout = 0` and
`timeout_max = 61000` (lines 166–167). -/
structure NS where
  health : Int
  shields_remaining : Int
  startup_timeout : Nat
  timeout_max : Nat
  now : Nat
  k : Nat
deriving Repr, DecidableEq

inductive SetupResult where
  | started (s : NS)
  | powered_down (s : NS)
deriving Repr, DecidableEq

/-- Line 263: `while (button_is_pressed(Shield_Pin));` after a game-type
toggle. -/
def toggle_release_wait (e : Env) : Nat → NS → Option NS
  | 0, _ => none
  | fuel + 1, s =>
    let p := poll e.shield e.cost s.now s.k
    let s1 := { s with now := p.2.1, k := p.2.2 }
    if p.1 then toggle_release_wait e fuel s1 else some s1

/-- Lines 238–270: `while (!button_is_pressed(Fire_Pin))` polling Shield
for the game-type toggle and checking the startup timeout.  A Shield
toggle swaps 10/15 with 25/30, resets `startup_timeout` to now and sets
`timeout_max` to 110000 (lines 259–260); the timeout branch calls
`shutdown_now()` (line 268), modelled as the `powered_down` outcome. -/
def normal_setup_loop (e : Env) : Nat → NS → Option SetupResult
  | 0, _ => none
  | fuel + 1, s =>
    let pf := poll e.fire e.cost s.now s.k
    let s1 := { s with now := pf.2.1, k := pf.2.2 }
    if pf.1 then some (.started s1)
    else
      let ps := poll e.shield e.cost s1.now s1.k
      let s2 := { s1 with now := ps.2.1, k := ps.2.2 }
      if ps.1 then
        let s3 :=
          if s2.health = (10 : Int) then
            { s2 with health := 25, shields_remaining := 30 }
          else
            { s2 with health := 10, shields_remaining := 15 }
        let s4 := { s3 with startup_timeout := s3.now, timeout_max := 110000 }
        match toggle_release_wait e fuel s4 with
        | none => none
        | some s5 => normal_setup_loop e fuel s5
      else if s2.startup_timeout + s2.timeout_max ≤ s2.now then
        some (.powered_down s2)
      else
        normal_setup_loop e fuel s2

/-! ## Advanced-mode number entry (`advanced_mode()`, lines 334–406)

The health phase (lines 339–363) and the shield phase (lines 376–397)
have textually identical control structure, differing only in which
counter `inc_…` mutates; they are modelled by one loop parameterised by
the increment function, instantiated with `inc_health` resp.
`inc_shield`. -/

/-- The counter being entered, the clock and the poll counter. -/
structure AM where
  value : Int
  now : Nat
  k : Nat
deriving Repr, DecidableEq

/-- The long-press hold loop (lines 350–358 resp. 386–394):
`while (button_is_pressed(Fire_Pin))`, and once `button_down_time +
1000 < millis()` each iteration increments and then delays 100 ms.  The
trace records `(time, new value)` of every increment (each increment
also re-renders, so the trace is exactly the sequence of re-renders). -/
def number_entry_hold (e : Env) (incFn : Int → Int) (button_down_time : Nat) :
    Nat → AM → Option (AM × List (Nat × Int))
  | 0, _ => none
  | fuel + 1, s =>
    let p := poll e.fire e.cost s.now s.k
    let s1 : AM := { s with now := p.2.1, k := p.2.2 }
    if p.1 then
      if button_down_time + 1000 < s1.now then
        let v := incFn s1.value
        let s2 : AM := { value := v, now := s1.now + 100, k := s1.k }
        match number_entry_hold e incFn button_down_time fuel s2 with
        | none => none
        | some (s3, tr) => some (s3, (s1.now, v) :: tr)
      else
        number_entry_hold e incFn button_down_time fuel s1
    else
      some (s1, [])

/-- One number-entry phase (lines 339–363 resp. 376–397):
`while (!button_is_pressed(Shield_Pin))`, each detected Fire press
incrementing once, recording `button_down_time`, then running the hold
loop until Fire is released. -/
def number_entry_loop (e : Env) (incFn : Int → Int) :
    Nat → AM → Option (AM × List (Nat × Int))
  | 0, _ => none
  | fuel + 1, s =>
    let ps := poll e.shield e.cost s.now s.k
    let s1 : AM := { s with now := ps.2.1, k := ps.2.2 }
    if ps.1 then some (s1, [])
    else
      let pf := poll e.fire e.cost s1.now s1.k
      let s2 : AM := { s1 with now := pf.2.1, k := pf.2.2 }
      if pf.1 then
        let v := incFn s2.value
        let s3 : AM := { value := v, now := s2.now, k := s2.k }
        match number_entry_hold e incFn s3.now fuel s3 with
        | none => none
        | some (s4, tr) =>
          match number_entry_loop e incFn fuel s4 with
          | none => none
          | some (s5, tr2) => some (s5, (s2.now, v) :: (tr ++ tr2))
      else
        number_entry_loop e incFn fuel s2

/-- Lines 366 and 400: `while (button_is_pressed(Shield_Pin));`. -/
def am_release_wait (e : Env) : Nat → AM → Option AM
  | 0, _ => none
  | fuel + 1, s =>
    let p := poll e.shield e.cost s.now s.k
    let s1 : AM := { s with now := p.2.1, k := p.2.2 }
    if p.1 then am_release_wait e fuel s1 else some s1

/-- The outcome of `advanced_mode()`.  `powered_down` is the outcome a
call to `shutdown_now()` would produce; `advanced_mode` contains no such
call, and the theorems prove the constructor is indeed unreachable. -/
inductive AdvancedResult where
  | done (health shields_remaining : Int) (store : Nat → Nat) (now k : Nat)
  | powered_down (now : Nat)

def AdvancedResult.is_shutdown : AdvancedResult → Bool
  | .powered_down _ => true
  | _ => false

/-- `advanced_mode()` (lines 334–406): health entry phase, release wait,
commit of health to EEPROM, shield entry phase, release wait, commit of
shields to EEPROM.  `EEPROM.write` takes a byte, hence the `% 256`
(ineffective for the in-range values that actually reach it). -/
def advanced_mode (e : Env) (fuel : Nat) (store : Nat → Nat)
    (health shields_remaining : Int) (now k : Nat) : Option AdvancedResult :=
  match number_entry_loop e inc_health fuel ⟨health, now, k⟩ with
  | none => none
  | some (a1, _) =>
    match am_release_wait e fuel a1 with
    | none => none
    | some a2 =>
      let store1 := EEPROM_write store ADVANCED_HEALTH_ADDRESS (a2.value % 256).toNat
      match number_entry_loop e inc_shield fuel ⟨shields_remaining, a2.now, a2.k⟩ with
      | none => none
      | some (b1, _) =>
        match am_release_wait e fuel b1 with
        | none => none
        | some b2 =>
          let store2 := EEPROM_write store1 ADVANCED_SHIELD_ADDRESS (b2.value % 256).toNat
          some (.done a2.value b2.value store2 b2.now b2.k)

/-! ## Main loop (`loop()`, lines 293–329) and `shutdown_now` (445–461) -/

/-- The `digitalWrite` calls of `shutdown_now()` (lines 449–453): every
one of the 14 segment lines driven low. -/
def shutdown_writes : List (Nat × Bool) :=
  (List.range 7).flatMap (fun i =>
    [(pinMap_digit1.getD i 0, false), (pinMap_digit2.getD i 0, false)])

/-- Lines 300–304: `while (!button_is_pressed(Hit_Beacon_Pin))` running
`shield_handler()` each iteration.  `hfuel` bounds each handler call. -/
def beacon_wait_loop (e : Env) (hfuel : Nat) : Nat → M → Option M
  | 0, _ => none
  | fuel + 1, s =>
    let p := poll e.beacon e.cost s.now s.k
    let s1 := { s with now := p.2.1, k := p.2.2 }
    if p.1 then some s1
    else
      match shield_handler e hfuel s1 with
      | none => none
      | some (s2, _) => beacon_wait_loop e hfuel fuel s2

/-- Line 314: `while (button_is_pressed(Hit_Beacon_Pin));`. -/
def beacon_dark_loop (e : Env) : Nat → M → Option M
  | 0, _ => none
  | fuel + 1, s =>
    let p := poll e.beacon e.cost s.now s.k
    let s1 := { s with now := p.2.1, k := p.2.2 }
    if p.1 then beacon_dark_loop e fuel s1 else some s1

/-- The outcome of one invocation of `loop()`: either control returns to
the Arduino scheduler (`next`, to call `loop()` again), or the depleted
branch ran `shutdown_now()` (`powered_down`, terminal: the source never
returns from it — `sleep_mode()` then `while(1);`). -/
inductive LoopResult where
  | next (s : M)
  | powered_down (s : M) (writes : List (Nat × Bool))
deriving Repr, DecidableEq

/-- One invocation of `loop()` (lines 293–329): wait for the beacon to
light (handling shield events meanwhile); if `health > 0` decrement,
display, wait for the beacon to go dark; otherwise display zero, hold it
for 60000 ms, and power down with all segment lines low. -/
def loop_once (e : Env) (fuel hfuel : Nat) (s : M) : Option LoopResult :=
  match beacon_wait_loop e hfuel fuel s with
  | none => none
  | some s1 =>
    if s1.health > 0 then
      let s2 := { s1 with health := s1.health - 1 }
      match beacon_dark_loop e fuel s2 with
      | none => none
      | some s3 => some (.next s3)
    else
      some (.powered_down { s1 with now := s1.now + 60000 } shutdown_writes)

/-- The pre-game countdown renders (lines 282–288): 10, 9, …, 1, then 0. -/
def startup_countdown : List Int :=
  (List.range 10).map (fun i => (10 - i : Int)) ++ [0]

/-! ## Reachable counter states

Every mutation the firmware ever applies to the pair
`(health, shields_remaining)`, as one inductive: the two normal-mode
seeds (lines 233–234 and 246–252), the advanced-mode boot load (lines
203–215), the number-entry increments, the hit decrement (line 311,
guarded by `health > 0`), and a completed `shield_handler` activation
under the physical per-poll overhead bound. -/
inductive Reach : Int × Int → Prop where
  | normal_default : Reach (10, 15)
  | normal_alt : Reach (25, 30)
  | adv_boot (st : Nat → Nat) : Reach ((advanced_boot st).2.1, (advanced_boot st).2.2)
  | hit (h s : Int) : Reach (h, s) → 0 < h → Reach (h - 1, s)
  | inc_h (h s : Int) : Reach (h, s) → Reach (inc_health h, s)
  | inc_s (h s : Int) : Reach (h, s) → Reach (h, inc_shield s)
  | shield (h s : Int) (e : Env) (fuel : Nat) (m m' : M) (tr : List Int) :
      Reach (h, s) → (∀ j, e.cost j ≤ 400) →
      m.health = h → m.shields_remaining = s →
      shield_handler e fuel m = some (m', tr) →
      Reach (m'.health, m'.shields_remaining)

end LTAR

/-! # Claims -/

namespace LTAR

/-- **C4.** For all integers `n` in [0,99], `display_num n` computes the
BCD packing `(n/10)*16 + n%10`, extracting tens digit `n/10` and units
digit `n%10`, and writes bit `i` of the segment-table pattern of the
tens digit to the `i`-th entry of `pinMap_digit1` and bit `i` of the
pattern of the units digit to the `i`-th entry of `pinMap_digit2`. -/
theorem C4_display_num_renders_bcd_digits (n : Int) (h0 : 0 ≤ n) (h99 : n ≤ 99) :
    (n / 10) * 16 + n % 10 = ((n.toNat / 10) * 16 + n.toNat % 10 : Nat) ∧
    display_num n = (List.range 7).flatMap (fun i =>
      [(pinMap_digit1.getD i 0,
        Nat.testBit (seg_array.getD (n.toNat / 10) 0) i),
       (pinMap_digit2.getD i 0,
        Nat.testBit (seg_array.getD (n.toNat % 10) 0) i)]) := by
  have key : ∀ m : Nat, m < 100 →
      ((m : Int) / 10) * 16 + (m : Int) % 10 =
        (((m : Int).toNat / 10) * 16 + (m : Int).toNat % 10 : Nat) ∧
      display_num (m : Int) = (List.range 7).flatMap (fun i =>
        [(pinMap_digit1.getD i 0,
          Nat.testBit (seg_array.getD ((m : Int).toNat / 10) 0) i),
         (pinMap_digit2.getD i 0,
          Nat.testBit (seg_array.getD ((m : Int).toNat % 10) 0) i)]) := by
    decide
  obtain ⟨m, rfl⟩ := Int.eq_ofNat_of_zero_le h0
  exact key m (by exact_mod_cast Int.lt_add_one_of_le h99)

/-- Closed witness for C4 at `n = 42`. -/
theorem C4_display_num_renders_bcd_digits_witness :
    ((42 : Int) / 10) * 16 + (42 : Int) % 10 =
      (((42 : Int).toNat / 10) * 16 + (42 : Int).toNat % 10 : Nat) ∧
    display_num 42 = (List.range 7).flatMap (fun i =>
      [(pinMap_digit1.getD i 0,
        Nat.testBit (seg_array.getD ((42 : Int).toNat / 10) 0) i),
       (pinMap_digit2.getD i 0,
        Nat.testBit (seg_array.getD ((42 : Int).toNat % 10) 0) i)]) :=
  C4_display_num_renders_bcd_digits 42 (by decide) (by decide)

/-- **C7.** `button_is_pressed` returns true iff the raw level is
asserted at the initial read and still asserted 55 ms later; a pulse
confined to a window shorter than 55 ms is never reported as pressed; a
level held continuously through the settle delay is always reported
pressed; and a clear initial read returns false immediately, without
consuming any time. -/
theorem C7_button_is_pressed_debounce (sig : Nat → Bool) (t : Nat) :
    ((button_is_pressed sig t).1 = true ↔ sig t = true ∧ sig (t + 55) = true) ∧
    (∀ a b : Nat, (∀ u, sig u = true → a ≤ u ∧ u < b) → b ≤ a + 55 →
      (button_is_pressed sig t).1 = false) ∧
    ((∀ u, t ≤ u → u ≤ t + 55 → sig u = true) →
      (button_is_pressed sig t).1 = true) ∧
    (sig t = false → button_is_pressed sig t = (false, t)) := by
  refine ⟨?_, ?_, ?_, ?_⟩
  · unfold button_is_pressed
    by_cases h : sig t
    · simp [h]
    · simp [h]
  · intro a b hin hshort
    unfold button_is_pressed
    by_cases h : sig t
    · simp only [h, if_true]
      by_cases h55 : sig (t + 55)
      · exfalso
        have h1 := hin t h
        have h2 := hin (t + 55) h55
        omega
      · simpa using h55
    · simp [h]
  · intro hheld
    unfold button_is_pressed
    have h1 : sig t = true := hheld t le_rfl (by omega)
    have h2 : sig (t + 55) = true := hheld (t + 55) (by omega) le_rfl
    simp [h1, h2]
  · intro h
    unfold button_is_pressed
    simp [h]

/-- Closed witness for C7: the constantly-high line at `t = 0`. -/
theorem C7_button_is_pressed_debounce_witness :
    ((button_is_pressed (fun _ => true) 0).1 = true ↔
      (fun _ : Nat => true) 0 = true ∧ (fun _ : Nat => true) (0 + 55) = true) ∧
    (∀ a b : Nat, (∀ u, (fun _ : Nat => true) u = true → a ≤ u ∧ u < b) →
      b ≤ a + 55 → (button_is_pressed (fun _ => true) 0).1 = false) ∧
    ((∀ u, 0 ≤ u → u ≤ 0 + 55 → (fun _ : Nat => true) u = true) →
      (button_is_pressed (fun _ => true) 0).1 = true) ∧
    ((fun _ : Nat => true) 0 = false →
      button_is_pressed (fun _ => true) 0 = (false, 0)) :=
  C7_button_is_pressed_debounce (fun _ => true) 0

/-- **C10.** For every non-negative starting value (in particular every
byte value in [0,255] loaded from storage), `inc_health` and `inc_shield`
land in [1,99]: incrementing from 0 yields 1, from 99 wraps to 1, and
the counters can never reach 100 through increments. -/
theorem C10_increment_stays_in_1_99 (v : Int) (h0 : 0 ≤ v) :
    (1 ≤ inc_health v ∧ inc_health v ≤ 99 ∧ inc_health v ≠ 100) ∧
    (1 ≤ inc_shield v ∧ inc_shield v ≤ 99 ∧ inc_shield v ≠ 100) ∧
    inc_health 0 = 1 ∧ inc_shield 0 = 1 := by
  unfold inc_health inc_shield
  refine ⟨?_, ?_, by decide, by decide⟩ <;> split <;> omega

/-- Closed witness for C10 at `v = 0`. -/
theorem C10_increment_stays_in_1_99_witness :
    ((1 ≤ inc_health 0 ∧ inc_health 0 ≤ 99 ∧ inc_health 0 ≠ 100) ∧
     (1 ≤ inc_shield 0 ∧ inc_shield 0 ≤ 99 ∧ inc_shield 0 ≠ 100) ∧
     inc_health 0 = 1 ∧ inc_shield 0 = 1) :=
  C10_increment_stays_in_1_99 0 (by decide)

/-- **C5.** Writing `H` and `S` (both ≤ 99) to the two persistent slots
and reading them back at advanced-mode boot leaves the store unchanged
and adopts `(H, S)`; if either slot holds a value above 99, both slots
are rewritten to the defaults (health 30, shields 10) and both in-memory
values become those defaults. -/
theorem C5_eeprom_roundtrip_and_reset :
    (∀ (st : Nat → Nat) (H S : Nat), H ≤ 99 → S ≤ 99 →
      advanced_boot
        (EEPROM_write (EEPROM_write st ADVANCED_HEALTH_ADDRESS H)
          ADVANCED_SHIELD_ADDRESS S) =
      (EEPROM_write (EEPROM_write st ADVANCED_HEALTH_ADDRESS H)
          ADVANCED_SHIELD_ADDRESS S, (H : Int), (S : Int))) ∧
    (∀ st : Nat → Nat,
      st ADVANCED_HEALTH_ADDRESS > 99 ∨ st ADVANCED_SHIELD_ADDRESS > 99 →
      (advanced_boot st).2 = (30, 10) ∧
      (advanced_boot st).1 ADVANCED_HEALTH_ADDRESS = 30 ∧
      (advanced_boot st).1 ADVANCED_SHIELD_ADDRESS = 10) := by
  constructor
  · intro st H S hH hS
    unfold advanced_boot EEPROM_write
    simp only [ADVANCED_HEALTH_ADDRESS, ADVANCED_SHIELD_ADDRESS]
    norm_num
    omega
  · intro st hbad
    unfold advanced_boot EEPROM_write
    have : ((st ADVANCED_HEALTH_ADDRESS : Int) > 99 ∨
            (st ADVANCED_SHIELD_ADDRESS : Int) > 99) := by
      rcases hbad with h | h
      · exact Or.inl (by exact_mod_cast Nat.lt_iff_add_one_le.mpr h)
      · exact Or.inr (by exact_mod_cast Nat.lt_iff_add_one_le.mpr h)
    simp only [if_pos this]
    simp [ADVANCED_HEALTH_ADDRESS, ADVANCED_SHIELD_ADDRESS]

/-! ### Helper lemmas about `NonInc` -/

theorem NonInc.of_le {a b : Int} {l : List Int} (hab : b ≤ a) (h : NonInc b l) :
    NonInc a l := by
  cases l with
  | nil => trivial
  | cons x xs => exact ⟨le_trans h.1 hab, h.2⟩

theorem NonInc.glue {a b : Int} {l m : List Int}
    (h1 : NonInc a (l ++ [b])) (h2 : NonInc b m) : NonInc a (l ++ m) := by
  induction l generalizing a with
  | nil => exact NonInc.of_le h1.1 h2
  | cons x xs ih => exact ⟨h1.1, ih h1.2⟩

theorem NonInc.le_head {a : Int} {l : List Int} (h : NonInc a l) :
    ∀ x ∈ l, x ≤ a := by
  induction l generalizing a with
  | nil => intro x hx; cases hx
  | cons y ys ih =>
    intro x hx
    rcases List.mem_cons.mp hx with rfl | hx
    · exact h.1
    · exact le_trans (ih h.2 x hx) h.1

/-! ### Helper lemmas about `poll` -/

theorem poll_snd (sig : Nat → Bool) (cost : Nat → Nat) (t k : Nat) :
    (poll sig cost t k).2.2 = k + 1 ∧
    t ≤ (poll sig cost t k).2.1 ∧
    (poll sig cost t k).2.1 ≤ t + cost k + 55 := by
  unfold poll button_is_pressed
  split <;> simp <;> omega

/-! ### The shield-handler invariant

The physical hypothesis in all shield theorems is `∀ j, e.cost j ≤ 400`:
one polling-loop iteration spends at most 400 ms outside the explicit
`delay` calls (on the 1–8 MHz ATtiny it is microseconds).  Under it a
poll advances the clock by at most 455 ms, each `update_shield` firing
subtracts exactly one point, and the unguarded recomputation of line 504
subtracts at most one point and none at all when the floor has already
been reached. -/

theorem shield_wait_loop_spec (e : Env) (hc : ∀ j, e.cost j ≤ 400)
    (pol : Bool) (mn : Int) (fuel : Nat) :
    ∀ (s s' : M) (tr : List Int),
      shield_wait_loop e pol mn fuel s = some (s', tr) →
      mn ≤ s.shields_remaining →
      s.shield_timing ≤ s.now →
      s.now - s.shield_timing ≤ 1453 →
      mn ≤ s'.shields_remaining ∧
      s'.shield_timing ≤ s'.now ∧
      s'.now - s'.shield_timing ≤ max (s.now - s.shield_timing + 455) 1453 ∧
      (s'.shields_remaining = mn →
        (s'.shields_remaining = s.shields_remaining ∧
         s'.now - s'.shield_timing ≤ s.now - s.shield_timing + 455) ∨
        s'.now - s'.shield_timing ≤ 455) ∧
      (∀ x ∈ tr, mn ≤ x) ∧
      NonInc s.shields_remaining (tr ++ [s'.shields_remaining]) ∧
      s'.health = s.health := by
  induction fuel with
  | zero =>
    intro s s' tr h
    simp [shield_wait_loop] at h
  | succ n ih =>
    intro s s' tr h hmn hts hgap
    have hpoll := poll_snd e.shield e.cost s.now s.k
    have hck := hc s.k
    rw [shield_wait_loop] at h
    simp only at h
    by_cases hcond :
        (poll e.shield e.cost s.now s.k).1 = pol ∧
        mn < ({ s with
                 now := (poll e.shield e.cost s.now s.k).2.1,
                 k := (poll e.shield e.cost s.now s.k).2.2 } : M).shields_remaining
    · rw [if_pos hcond] at h
      by_cases hfire :
          ({ s with
              now := (poll e.shield e.cost s.now s.k).2.1,
              k := (poll e.shield e.cost s.now s.k).2.2 } : M).shield_timing + 999 ≤
          ({ s with
              now := (poll e.shield e.cost s.now s.k).2.1,
              k := (poll e.shield e.cost s.now s.k).2.2 } : M).now
      · rw [update_shield, if_pos hfire] at h
        simp only at h
        set t1 := (poll e.shield e.cost s.now s.k).2.1 with ht1
        have hcond' : mn < s.shields_remaining := by
          have := hcond.2
          simpa using this
        have hfire' : s.shield_timing + 999 ≤ t1 := by
          simpa using hfire
        have hq : (t1 - s.shield_timing) / 999 = 1 := by
          omega
        rw [hq] at h
        cases hrec : shield_wait_loop e pol mn n
            { s with
              shields_remaining := s.shields_remaining - (1 : Nat),
              shield_timing := t1, now := t1,
              k := (poll e.shield e.cost s.now s.k).2.2 } with
        | none => rw [hrec] at h; cases h
        | some pr =>
          obtain ⟨s2, tr2⟩ := pr
          rw [hrec] at h
          injection h with h
          injection h with hs htr
          subst hs
          have hrec' := ih _ _ _ hrec (by simp; omega) (by simp) (by simp)
          obtain ⟨A, B, C, D, E, F, G⟩ := hrec'
          subst htr
          refine ⟨A, B, ?_, ?_, ?_, ?_, ?_⟩
          · simp only at C
            omega
          · intro hm
            rcases D hm with ⟨hD1, hD2⟩ | hD
            · right; simp only at hD2; omega
            · right; exact hD
          · intro x hx
            rcases List.mem_append.mp hx with hx | hx
            · rcases List.mem_singleton.mp hx with rfl
              omega
            · exact E x hx
          · constructor
            · omega
            · simpa using F
          · simpa using G
      · rw [update_shield, if_neg hfire] at h
        simp only at h
        set t1 := (poll e.shield e.cost s.now s.k).2.1 with ht1
        have hcond' : mn < s.shields_remaining := by
          have := hcond.2
          simpa using this
        have hfire' : ¬ (s.shield_timing + 999 ≤ t1) := by
          simpa using hfire
        cases hrec : shield_wait_loop e pol mn n
            { s with
              now := t1,
              k := (poll e.shield e.cost s.now s.k).2.2 } with
        | none => rw [hrec] at h; cases h
        | some pr =>
          obtain ⟨s2, tr2⟩ := pr
          rw [hrec] at h
          injection h with h
          injection h with hs htr
          subst hs
          have hrec' := ih _ _ _ hrec (by simp; omega) (by simp; omega)
            (by simp; omega)
          obtain ⟨A, B, C, D, E, F, G⟩ := hrec'
          subst htr
          refine ⟨A, B, ?_, ?_, ?_, ?_, ?_⟩
          · simp only at C
            omega
          · intro hm
            rcases D hm with ⟨hD1, hD2⟩ | hD
            · simp only at hD1 hD2
              right
              omega
            · right; exact hD
          · intro x hx
            simp only [List.nil_append] at hx
            exact E x hx
          · simpa using F
          · simpa using G
    · rw [if_neg hcond] at h
      injection h with h
      injection h with hs htr
      subst hs
      subst htr
      refine ⟨by simpa using hmn, by simp; omega, by simp; omega, ?_, ?_, ?_, by simp⟩
      · intro _
        left
        exact ⟨by simp, by simp; omega⟩
      · intro x hx; cases hx
      · exact ⟨le_refl _, trivial⟩

theorem shield_release_loop_spec (e : Env) (mn : Int) (fuel : Nat) :
    ∀ (s s' : M), shield_release_loop e mn fuel s = some s' →
      s'.shields_remaining = s.shields_remaining ∧
      s'.health = s.health ∧
      s'.shield_timing = s.shield_timing ∧
      s.now ≤ s'.now := by
  induction fuel with
  | zero =>
    intro s s' h
    simp [shield_release_loop] at h
  | succ n ih =>
    intro s s' h
    have hpoll := poll_snd e.shield e.cost s.now s.k
    rw [shield_release_loop] at h
    simp only at h
    by_cases hcond :
        (poll e.shield e.cost s.now s.k).1 = true ∧
        mn < ({ s with
                 now := (poll e.shield e.cost s.now s.k).2.1,
                 k := (poll e.shield e.cost s.now s.k).2.2 } : M).shields_remaining
    · rw [if_pos hcond] at h
      have hrec := ih _ _ h
      simp only at hrec
      exact ⟨hrec.1, hrec.2.1, hrec.2.2.1, by omega⟩
    · rw [if_neg hcond] at h
      injection h with h
      subst h
      exact ⟨by simp, by simp, by simp, by simp; omega⟩

/-- The master specification of one `shield_handler` call: the trace of
`shields_remaining` values never increases, never falls below
`max (prior - 10) 0`, and the final state keeps `health` and leaves
`shields_remaining` between the floor and the prior value. -/
theorem shield_handler_spec (e : Env) (hc : ∀ j, e.cost j ≤ 400) (fuel : Nat)
    (s s' : M) (tr : List Int)
    (h0 : 0 ≤ s.shields_remaining)
    (h : shield_handler e fuel s = some (s', tr)) :
    NonInc s.shields_remaining tr ∧
    (∀ x ∈ tr, max (s.shields_remaining - 10) 0 ≤ x) ∧
    s'.health = s.health ∧
    max (s.shields_remaining - 10) 0 ≤ s'.shields_remaining ∧
    s'.shields_remaining ≤ s.shields_remaining := by
  have hpoll := poll_snd e.shield e.cost s.now s.k
  have hck := hc s.k
  rw [shield_handler] at h
  simp only at h
  set t1 := (poll e.shield e.cost s.now s.k).2.1 with ht1
  set k1 := (poll e.shield e.cost s.now s.k).2.2 with hk1
  by_cases hp : (poll e.shield e.cost s.now s.k).1 = true
  swap
  · rw [if_neg hp] at h
    injection h with h
    injection h with hs htr
    subst hs
    subst htr
    refine ⟨trivial, ?_, by simp, by simp; omega, by simp⟩
    intro x hx
    cases hx
  · rw [if_pos hp] at h
    set mn := (if s.shields_remaining - 10 > 0 then s.shields_remaining - 10 else (0 : Int))
      with hmndef
    have hmn0 : 0 ≤ mn := by rw [hmndef]; split <;> omega
    have hmnle : mn ≤ s.shields_remaining := by rw [hmndef]; split <;> omega
    have hmneq : max (s.shields_remaining - 10) 0 = mn := by
      rw [hmndef]; split <;> omega
    cases hrec1 : shield_wait_loop e true mn fuel
        { s with shield_timing := t1, now := t1, k := k1 } with
    | none => rw [hrec1] at h; cases h
    | some pr1 =>
      obtain ⟨s3, tr1⟩ := pr1
      rw [hrec1] at h
      simp only at h
      cases hrec2 : shield_wait_loop e false mn fuel s3 with
      | none => rw [hrec2] at h; cases h
      | some pr2 =>
        obtain ⟨s4, tr2⟩ := pr2
        rw [hrec2] at h
        simp only at h
        cases hrec3 : shield_release_loop e mn fuel
            { s4 with shields_remaining :=
              s4.shields_remaining - (((s4.now - s4.shield_timing) / 999 : Nat) : Int) } with
        | none => rw [hrec3] at h; cases h
        | some s6 =>
          rw [hrec3] at h
          simp only at h
          have h1 := shield_wait_loop_spec e hc true mn fuel _ _ _ hrec1
            (by simpa using hmnle) (by simp) (by simp)
          simp only at h1
          obtain ⟨A1, B1, C1x, D1, E1, F1, G1⟩ := h1
          have h2 := shield_wait_loop_spec e hc false mn fuel _ _ _ hrec2
            A1 B1 (by omega)
          obtain ⟨A2, B2, C2x, D2, E2, F2, G2⟩ := h2
          have h3 := shield_release_loop_spec e mn fuel _ _ hrec3
          simp only at h3
          obtain ⟨A3, B3, C3x, D3⟩ := h3
          have hgap4 : s4.now - s4.shield_timing ≤ 1908 := by omega
          have hqle : (s4.now - s4.shield_timing) / 999 ≤ 1 := by omega
          have h5floor : mn ≤ s4.shields_remaining -
              (((s4.now - s4.shield_timing) / 999 : Nat) : Int) := by
            rcases eq_or_lt_of_le A2 with hEq | hLt
            · rcases D2 hEq.symm with ⟨hsame, hgp⟩ | hgp
              · rcases D1 (by omega) with ⟨hsame1, hgp1⟩ | hgp1
                · have : (s4.now - s4.shield_timing) / 999 = 0 := by omega
                  omega
                · have : (s4.now - s4.shield_timing) / 999 = 0 := by omega
                  omega
              · have : (s4.now - s4.shield_timing) / 999 = 0 := by omega
                omega
            · omega
          by_cases hpen : mn < s6.shields_remaining
          · rw [if_pos hpen] at h
            simp only at h
            injection h with h
            injection h with hs htr
            subst hs
            subst htr
            have hs4le : s4.shields_remaining ≤ s.shields_remaining := by
              have hm4 : s4.shields_remaining ∈ tr2 ++ [s4.shields_remaining] := by simp
              have hm3 : s3.shields_remaining ∈ tr1 ++ [s3.shields_remaining] := by simp
              have := NonInc.le_head F2 _ hm4
              have := NonInc.le_head F1 _ hm3
              omega
            have hglue : NonInc s.shields_remaining
                (tr1 ++ tr2 ++
                  [s4.shields_remaining - (((s4.now - s4.shield_timing) / 999 : Nat) : Int),
                   s6.shields_remaining - 1]) := by
              have g1 := NonInc.glue F1 F2
              rw [← List.append_assoc] at g1
              have g2 : NonInc s4.shields_remaining
                  [s4.shields_remaining - (((s4.now - s4.shield_timing) / 999 : Nat) : Int),
                   s6.shields_remaining - 1] := by
                refine ⟨by omega, by omega, trivial⟩
              exact NonInc.glue g1 g2
            refine ⟨⟨le_refl _, hglue⟩, ?_, ?_, ?_, ?_⟩
            · intro x hx
              rw [hmneq]
              rcases List.mem_cons.mp hx with rfl | hx
              · exact hmnle
              · rcases List.mem_append.mp hx with hx | hx
                · rcases List.mem_append.mp hx with hx | hx
                  · exact E1 x hx
                  · exact E2 x hx
                · rcases List.mem_cons.mp hx with rfl | hx
                  · exact h5floor
                  · rcases List.mem_cons.mp hx with rfl | hx
                    · omega
                    · cases hx
            · show s6.health = s.health
              omega
            · rw [hmneq]
              show mn ≤ s6.shields_remaining - 1
              omega
            · show s6.shields_remaining - 1 ≤ s.shields_remaining
              omega
          · rw [if_neg hpen] at h
            injection h with h
            injection h with hs htr
            subst hs
            subst htr
            have hs4le : s4.shields_remaining ≤ s.shields_remaining := by
              have hm4 : s4.shields_remaining ∈ tr2 ++ [s4.shields_remaining] := by simp
              have hm3 : s3.shields_remaining ∈ tr1 ++ [s3.shields_remaining] := by simp
              have := NonInc.le_head F2 _ hm4
              have := NonInc.le_head F1 _ hm3
              omega
            have hglue : NonInc s.shields_remaining
                (tr1 ++ tr2 ++
                  [s4.shields_remaining - (((s4.now - s4.shield_timing) / 999 : Nat) : Int),
                   s6.shields_remaining]) := by
              have g1 := NonInc.glue F1 F2
              rw [← List.append_assoc] at g1
              have g2 : NonInc s4.shields_remaining
                  [s4.shields_remaining - (((s4.now - s4.shield_timing) / 999 : Nat) : Int),
                   s6.shields_remaining] := by
                refine ⟨by omega, by omega, trivial⟩
              exact NonInc.glue g1 g2
            refine ⟨⟨le_refl _, hglue⟩, ?_, by omega, ?_, ?_⟩
            · intro x hx
              rw [hmneq]
              rcases List.mem_cons.mp hx with rfl | hx
              · exact hmnle
              · rcases List.mem_append.mp hx with hx | hx
                · rcases List.mem_append.mp hx with hx | hx
                  · exact E1 x hx
                  · exact E2 x hx
                · rcases List.mem_cons.mp hx with rfl | hx
                  · exact h5floor
                  · rcases List.mem_cons.mp hx with rfl | hx
                    · omega
                    · cases hx
            · rw [hmneq]
              omega
            · omega

/-- Closed witness for C5: round trip of (7, 8) over the all-255
(erased) store, and the reset policy on the all-255 store itself. -/
theorem C5_eeprom_roundtrip_and_reset_witness :
    advanced_boot
      (EEPROM_write (EEPROM_write (fun _ => 255) ADVANCED_HEALTH_ADDRESS 7)
        ADVANCED_SHIELD_ADDRESS 8) =
    (EEPROM_write (EEPROM_write (fun _ => 255) ADVANCED_HEALTH_ADDRESS 7)
        ADVANCED_SHIELD_ADDRESS 8, (7 : Int), (8 : Int)) ∧
    ((advanced_boot (fun _ => 255)).2 = (30, 10) ∧
     (advanced_boot (fun _ => 255)).1 ADVANCED_HEALTH_ADDRESS = 30 ∧
     (advanced_boot (fun _ => 255)).1 ADVANCED_SHIELD_ADDRESS = 10) :=
  ⟨C5_eeprom_roundtrip_and_reset.1 (fun _ => 255) 7 8 (by decide) (by decide),
   C5_eeprom_roundtrip_and_reset.2 (fun _ => 255) (Or.inl (by decide))⟩

/-- **C1.** During one `shield_handler` activation (entered with prior
value `priorShields = s.shields_remaining ≥ 0`), the sequence of values
`shields_remaining` takes — including every `update_shield`
recomputation, the unguarded recomputation of line 504 and the final
penalty decrement — is monotonically non-increasing and never drops
below `shieldFloor = max (priorShields - 10) 0`.  The hypothesis
`e.cost j ≤ 400` bounds the instruction overhead of one polling
iteration (microseconds on the real MCU; any bound below 445 ms works). -/
theorem C1_shield_countdown_monotone_and_floored
    (e : Env) (fuel : Nat) (s s' : M) (tr : List Int)
    (hc : ∀ j, e.cost j ≤ 400) (h0 : 0 ≤ s.shields_remaining)
    (h : shield_handler e fuel s = some (s', tr)) :
    NonInc s.shields_remaining tr ∧
    ∀ x ∈ tr, max (s.shields_remaining - 10) 0 ≤ x :=
  ⟨(shield_handler_spec e hc fuel s s' tr h0 h).1,
   (shield_handler_spec e hc fuel s s' tr h0 h).2.1⟩

/-- Closed witness for C1: an activation with prior value 15 — pressed
at t=0, released around t=112, pressed again at t=116 (a fast
deactivation), released at t=172 — produces the value trace
`[15, 15, 14]` (display at activation, line-504 recomputation, penalty
decrement), which is non-increasing and floored at `max (15-10) 0 = 5`. -/
theorem C1_shield_countdown_monotone_and_floored_witness :
    NonInc (15 : Int) [15, 15, 14] ∧
    ∀ x ∈ ([15, 15, 14] : List Int), max ((15 : Int) - 10) 0 ≤ x :=
  C1_shield_countdown_monotone_and_floored
    ⟨(fun _ => false), (fun t => decide (t < 100 ∨ (116 ≤ t ∧ t < 172))),
     (fun _ => false), (fun _ => 1)⟩
    10 ⟨30, 15, 0, 0, 0⟩ ⟨30, 14, 56, 172, 7⟩ [15, 15, 14]
    (fun _ => by norm_num) (by norm_num) (by rfl)

/-- **C2.** (1) Every reachable value of the counter pair
`(health, shields_remaining)` lies in [0,99]×[0,99]; (2) every value a
`shield_handler` activation from a reachable state passes to
`display_num` (the activation trace) is in [0,99]; (3) every pre-game
countdown value passed to `display_num` is in [0,99].  Together with
`inc_health`/`inc_shield` landing in [1,99] (constructors of `Reach`)
and the hit decrement being guarded by `health > 0`, this covers every
`display_num` call site: each receives either `health`, a countdown
constant, zero, or a value of a shield activation trace. -/
theorem C2_counters_and_display_in_range :
    (∀ p : Int × Int, Reach p → 0 ≤ p.1 ∧ p.1 ≤ 99 ∧ 0 ≤ p.2 ∧ p.2 ≤ 99) ∧
    (∀ (h s : Int) (e : Env) (fuel : Nat) (m m' : M) (tr : List Int),
      Reach (h, s) → (∀ j, e.cost j ≤ 400) →
      m.health = h → m.shields_remaining = s →
      shield_handler e fuel m = some (m', tr) →
      ∀ x ∈ tr, 0 ≤ x ∧ x ≤ 99) ∧
    (∀ x ∈ startup_countdown, 0 ≤ x ∧ x ≤ 99) := by
  have main : ∀ p : Int × Int, Reach p → 0 ≤ p.1 ∧ p.1 ≤ 99 ∧ 0 ≤ p.2 ∧ p.2 ≤ 99 := by
    intro p hp
    induction hp with
    | normal_default => norm_num
    | normal_alt => norm_num
    | adv_boot st =>
      simp only [advanced_boot]
      split
      · show (0 : Int) ≤ 30 ∧ (30 : Int) ≤ 99 ∧ (0 : Int) ≤ 10 ∧ (10 : Int) ≤ 99
        norm_num
      · rename_i hcond
        push_neg at hcond
        show (0 : Int) ≤ (st ADVANCED_HEALTH_ADDRESS : Int) ∧
          (st ADVANCED_HEALTH_ADDRESS : Int) ≤ 99 ∧
          (0 : Int) ≤ (st ADVANCED_SHIELD_ADDRESS : Int) ∧
          (st ADVANCED_SHIELD_ADDRESS : Int) ≤ 99
        refine ⟨?_, ?_, ?_, ?_⟩ <;> omega
    | hit h s hr hpos ih =>
      obtain ⟨i1, i2, i3, i4⟩ := ih
      exact ⟨by omega, by omega, i3, i4⟩
    | inc_h h s hr ih =>
      obtain ⟨i1, i2, i3, i4⟩ := ih
      refine ⟨?_, ?_, i3, i4⟩ <;> (unfold inc_health; split <;> omega)
    | inc_s h s hr ih =>
      obtain ⟨i1, i2, i3, i4⟩ := ih
      refine ⟨i1, i2, ?_, ?_⟩ <;> (unfold inc_shield; split <;> omega)
    | shield h s e fuel m m' tr hr hc hh hs hrun ih =>
      obtain ⟨i1, i2, i3, i4⟩ := ih
      have spec := shield_handler_spec e hc fuel m m' tr (by omega) hrun
      obtain ⟨-, -, hhp, hfl, hle⟩ := spec
      exact ⟨by omega, by omega, by omega, by omega⟩
  refine ⟨main, ?_, by decide⟩
  intro h s e fuel m m' tr hr hc hh hs hrun x hx
  obtain ⟨i1, i2, i3, i4⟩ := main _ hr
  have spec := shield_handler_spec e hc fuel m m' tr (by simp only at i3 ⊢; omega) hrun
  have hxf := spec.2.1 x hx
  have hxl := NonInc.le_head spec.1 x hx
  simp only at i3 i4
  constructor
  · omega
  · omega

/-- Closed witness for C2: the normal-mode default pair (10, 15) is
reachable and in range; a concrete activation from it produces the
in-range trace `[15, 15, 14]`; the countdown values are in range. -/
theorem C2_counters_and_display_in_range_witness :
    ((0 : Int) ≤ 10 ∧ (10 : Int) ≤ 99 ∧ (0 : Int) ≤ 15 ∧ (15 : Int) ≤ 99) ∧
    (∀ x ∈ ([15, 15, 14] : List Int), (0 : Int) ≤ x ∧ x ≤ 99) ∧
    (∀ x ∈ startup_countdown, 0 ≤ x ∧ x ≤ 99) :=
  ⟨C2_counters_and_display_in_range.1 (10, 15) Reach.normal_default,
   C2_counters_and_display_in_range.2.1 10 15
     ⟨(fun _ => false), (fun t => decide (t < 100 ∨ (116 ≤ t ∧ t < 172))),
      (fun _ => false), (fun _ => 1)⟩
     10 ⟨10, 15, 0, 0, 0⟩ ⟨10, 14, 56, 172, 7⟩ [15, 15, 14]
     Reach.normal_default (fun _ => by norm_num) rfl rfl (by rfl),
   C2_counters_and_display_in_range.2.2⟩

/-! ### Normal-setup timeout (C3) -/

theorem toggle_release_wait_fields (e : Env) (fuel : Nat) :
    ∀ s s' : NS, toggle_release_wait e fuel s = some s' →
      s'.health = s.health ∧ s'.shields_remaining = s.shields_remaining ∧
      s'.startup_timeout = s.startup_timeout ∧ s'.timeout_max = s.timeout_max := by
  induction fuel with
  | zero =>
    intro s s' h
    simp [toggle_release_wait] at h
  | succ n ih =>
    intro s s' h
    rw [toggle_release_wait] at h
    by_cases hp : (poll e.shield e.cost s.now s.k).1 = true
    · rw [if_pos hp] at h
      have hrec := ih _ _ h
      simpa using hrec
    · rw [if_neg hp] at h
      injection h with h
      subst h
      simp

/-- **C3 (counterexample).** With no button ever pressed and setup entry
at `millis() = 0`, the normal-setup loop reaches its timeout check at
60500 ms — more than 60 s after setup entry with no Shield press — and
does *not* power down; it powers down at 61100 ms, not at the 60000 ms
the claim requires ("exactly when 60 seconds have elapsed").  The cause:
the initial window is `timeout_max = 61000` (line 167), not 60 s. -/
theorem C3_counterexample :
    normal_setup_loop
      ⟨(fun _ => false), (fun _ => false), (fun _ => false),
       (fun j => if j = 0 then 59000 else 300)⟩ 4
      ⟨10, 15, 0, 61000, 0, 0⟩ =
      some (.powered_down ⟨10, 15, 0, 61000, 61100, 8⟩) ∧
    (61100 : Nat) ≠ 0 + 60000 := by
  constructor
  · rfl
  · decide

/-- **C3 (amended).** In normal setup, PoweredDown is entered only at a
timeout check satisfying `startup_timeout + timeout_max ≤ millis()`,
where at entry `startup_timeout = 0` (power-on) and
`timeout_max = 61000` ms — a 61 s window, not 60 s — and every Shield
toggle sets `startup_timeout` to the toggle time and `timeout_max` to
110000 ms, i.e. resets the clock with a fresh **110 s** window, not a
60 s one.  Consequently shutdown never occurs before 61 s after
power-on. -/
theorem C3_normal_setup_timeout_amended (e : Env) (fuel : Nat) :
    ∀ s sf : NS,
      normal_setup_loop e fuel s = some (.powered_down sf) →
      ((s.startup_timeout = 0 ∧ s.timeout_max = 61000) ∨ s.timeout_max = 110000) →
      sf.startup_timeout + sf.timeout_max ≤ sf.now ∧
      ((sf.startup_timeout = 0 ∧ sf.timeout_max = 61000) ∨ sf.timeout_max = 110000) ∧
      61000 ≤ sf.now := by
  induction fuel with
  | zero =>
    intro s sf h
    simp [normal_setup_loop] at h
  | succ n ih =>
    intro s sf h hinit
    rw [normal_setup_loop] at h
    simp only at h
    set t1 := (poll e.fire e.cost s.now s.k).2.1 with ht1
    set k1 := (poll e.fire e.cost s.now s.k).2.2 with hk1
    by_cases hf : (poll e.fire e.cost s.now s.k).1 = true
    · rw [if_pos hf] at h
      injection h with h
      cases h
    · rw [if_neg hf] at h
      set t2 := (poll e.shield e.cost t1 k1).2.1 with ht2
      set k2 := (poll e.shield e.cost t1 k1).2.2 with hk2
      by_cases hs2 : (poll e.shield e.cost t1 k1).1 = true
      · rw [if_pos hs2] at h
        split at h
        · exact Option.noConfusion h
        · rename_i s5 hw
          have hfields := toggle_release_wait_fields e n _ _ hw
          refine ih _ _ h (Or.inr ?_)
          have htm := hfields.2.2.2
          simpa using htm
      · rw [if_neg hs2] at h
        by_cases htm :
            ({ s with now := t2, k := k2 } : NS).startup_timeout +
              ({ s with now := t2, k := k2 } : NS).timeout_max ≤
            ({ s with now := t2, k := k2 } : NS).now
        · rw [if_pos htm] at h
          injection h with h
          injection h with h
          subst h
          simp only at htm
          refine ⟨by simpa using htm, ?_, ?_⟩
          · simpa using hinit
          · rcases hinit with ⟨ha, hb⟩ | hb <;> simp <;> omega
        · rw [if_neg htm] at h
          refine ih _ _ h ?_
          simpa using hinit

/-- Closed witness for the amended C3, at the counterexample run: the
shutdown state has `startup_timeout = 0`, `timeout_max = 61000`,
`now = 61100`. -/
theorem C3_normal_setup_timeout_amended_witness :
    0 + 61000 ≤ 61100 ∧
    ((0 = 0 ∧ 61000 = 61000) ∨ 61000 = 110000) ∧
    (61000 : Nat) ≤ 61100 :=
  C3_normal_setup_timeout_amended
    ⟨(fun _ => false), (fun _ => false), (fun _ => false),
     (fun j => if j = 0 then 59000 else 300)⟩ 4
    ⟨10, 15, 0, 61000, 0, 0⟩ ⟨10, 15, 0, 61000, 61100, 8⟩
    (by rfl) (Or.inl ⟨rfl, rfl⟩)

/-! ### Main-loop depletion (C6) -/

theorem shield_wait_loop_frame (e : Env) (pol : Bool) (mn : Int) (fuel : Nat) :
    ∀ s s' tr, shield_wait_loop e pol mn fuel s = some (s', tr) →
      s'.health = s.health ∧ s.now ≤ s'.now := by
  induction fuel with
  | zero =>
    intro s s' tr h
    simp [shield_wait_loop] at h
  | succ n ih =>
    intro s s' tr h
    have hpoll := poll_snd e.shield e.cost s.now s.k
    rw [shield_wait_loop] at h
    simp only at h
    set t1 := (poll e.shield e.cost s.now s.k).2.1 with ht1
    by_cases hcond :
        (poll e.shield e.cost s.now s.k).1 = pol ∧ mn < s.shields_remaining
    · rw [if_pos hcond] at h
      rw [update_shield] at h
      simp only at h
      by_cases hfire : s.shield_timing + 999 ≤ t1
      · rw [if_pos hfire] at h
        simp only at h
        cases hrec : shield_wait_loop e pol mn n
            { s with
              shields_remaining :=
                s.shields_remaining - (((t1 - s.shield_timing) / 999 : Nat) : Int),
              shield_timing := t1, now := t1,
              k := (poll e.shield e.cost s.now s.k).2.2 } with
        | none => rw [hrec] at h; cases h
        | some pr =>
          obtain ⟨s2, tr2⟩ := pr
          rw [hrec] at h
          injection h with h
          injection h with hs htr
          subst hs
          have hrec' := ih _ _ _ hrec
          simp only at hrec'
          exact ⟨hrec'.1, by omega⟩
      · rw [if_neg hfire] at h
        simp only at h
        cases hrec : shield_wait_loop e pol mn n
            { s with
              now := t1,
              k := (poll e.shield e.cost s.now s.k).2.2 } with
        | none => rw [hrec] at h; cases h
        | some pr =>
          obtain ⟨s2, tr2⟩ := pr
          rw [hrec] at h
          injection h with h
          injection h with hs htr
          subst hs
          have hrec' := ih _ _ _ hrec
          simp only at hrec'
          exact ⟨hrec'.1, by omega⟩
    · rw [if_neg hcond] at h
      injection h with h
      injection h with hs htr
      subst hs
      exact ⟨by simp, by simp; omega⟩

theorem shield_handler_frame (e : Env) (fuel : Nat) (s s' : M) (tr : List Int)
    (h : shield_handler e fuel s = some (s', tr)) :
    s'.health = s.health ∧ s.now ≤ s'.now := by
  have hpoll := poll_snd e.shield e.cost s.now s.k
  rw [shield_handler] at h
  simp only at h
  set t1 := (poll e.shield e.cost s.now s.k).2.1 with ht1
  set k1 := (poll e.shield e.cost s.now s.k).2.2 with hk1
  by_cases hp : (poll e.shield e.cost s.now s.k).1 = true
  swap
  · rw [if_neg hp] at h
    injection h with h
    injection h with hs htr
    subst hs
    exact ⟨by simp, by simp; omega⟩
  · rw [if_pos hp] at h
    set mn := (if s.shields_remaining - 10 > 0 then s.shields_remaining - 10 else (0 : Int))
      with hmndef
    cases hrec1 : shield_wait_loop e true mn fuel
        { s with shield_timing := t1, now := t1, k := k1 } with
    | none => rw [hrec1] at h; cases h
    | some pr1 =>
      obtain ⟨s3, tr1⟩ := pr1
      rw [hrec1] at h
      simp only at h
      cases hrec2 : shield_wait_loop e false mn fuel s3 with
      | none => rw [hrec2] at h; cases h
      | some pr2 =>
        obtain ⟨s4, tr2⟩ := pr2
        rw [hrec2] at h
        simp only at h
        cases hrec3 : shield_release_loop e mn fuel
            { s4 with shields_remaining :=
              s4.shields_remaining - (((s4.now - s4.shield_timing) / 999 : Nat) : Int) } with
        | none => rw [hrec3] at h; cases h
        | some s6 =>
          rw [hrec3] at h
          simp only at h
          have h1 := shield_wait_loop_frame e true mn fuel _ _ _ hrec1
          have h2 := shield_wait_loop_frame e false mn fuel _ _ _ hrec2
          have h3 := shield_release_loop_spec e mn fuel _ _ hrec3
          simp only at h1 h3
          by_cases hpen : mn < s6.shields_remaining
          · rw [if_pos hpen] at h
            simp only at h
            injection h with h
            injection h with hs htr
            subst hs
            refine ⟨?_, ?_⟩
            · show s6.health = s.health
              omega
            · show s.now ≤ s6.now
              omega
          · rw [if_neg hpen] at h
            injection h with h
            injection h with hs htr
            subst hs
            exact ⟨by omega, by omega⟩

theorem beacon_wait_loop_frame (e : Env) (hfuel : Nat) (fuel : Nat) :
    ∀ s s', beacon_wait_loop e hfuel fuel s = some s' →
      s'.health = s.health ∧ s.now ≤ s'.now := by
  induction fuel with
  | zero =>
    intro s s' h
    simp [beacon_wait_loop] at h
  | succ n ih =>
    intro s s' h
    have hpoll := poll_snd e.beacon e.cost s.now s.k
    rw [beacon_wait_loop] at h
    by_cases hp : (poll e.beacon e.cost s.now s.k).1 = true
    · rw [if_pos hp] at h
      injection h with h
      subst h
      exact ⟨by simp, by simp; omega⟩
    · rw [if_neg hp] at h
      split at h
      · exact Option.noConfusion h
      · rename_i hw
        have hh := shield_handler_frame e hfuel _ _ _ hw
        have hrec := ih _ _ h
        simp only at hh
        exact ⟨by omega, by omega⟩

/-- **C6 (counterexample).**  First conjunct: with `health = 0` and no
input at all (every line constantly low), the main loop is still inside
its beacon-polling wait after ten iterations spanning two million
simulated milliseconds — far beyond the claimed 60 s — and has not
powered down: reaching 0 does *not* start the 60 s hold, and no input
means no shutdown, ever (`loop()` has no timeout).  Second conjunct:
one further HitBeacon assertion (at 50 ms) *is* required, after which
the depleted branch powers down at its detection time plus 60000 ms with
all 14 segment lines low. -/
theorem C6_counterexample :
    loop_once
      ⟨(fun _ => false), (fun _ => false), (fun _ => false), (fun _ => 100000)⟩
      10 1 ⟨0, 5, 0, 0, 0⟩ = none ∧
    loop_once
      ⟨(fun _ => false), (fun _ => false), (fun t => decide (50 ≤ t)), (fun _ => 25)⟩
      2 1 ⟨0, 5, 0, 0, 0⟩ =
      some (.powered_down ⟨0, 5, 0, 60130, 3⟩ shutdown_writes) :=
  ⟨rfl, rfl⟩

/-- **C6 (amended).**  Once `health` is 0, the depleted branch of
`loop()` runs only upon the *next* HitBeacon assertion; when it does,
the firmware holds the zero display for 60000 ms and transitions to
PoweredDown with all 14 segment lines driven low, never returning
(`shutdown_now` sleeps and then spins forever — `powered_down` is a
terminal outcome).  Until that beacon assertion the loop keeps polling
(shield input is still handled) and never powers down on its own. -/
theorem C6_depletion_amended (e : Env) (fuel hfuel : Nat) (s s' : M)
    (w : List (Nat × Bool))
    (h : loop_once e fuel hfuel s = some (.powered_down s' w)) :
    s.health ≤ 0 ∧ s'.health = s.health ∧ w = shutdown_writes ∧
    s.now + 60000 ≤ s'.now := by
  rw [loop_once] at h
  cases hb : beacon_wait_loop e hfuel fuel s with
  | none => rw [hb] at h; cases h
  | some s1 =>
    rw [hb] at h
    simp only at h
    have hf := beacon_wait_loop_frame e hfuel fuel _ _ hb
    by_cases hpos : s1.health > 0
    · rw [if_pos hpos] at h
      split at h
      · exact Option.noConfusion h
      · injection h with h
        cases h
    · rw [if_neg hpos] at h
      injection h with h
      injection h with hs hw
      have hs' := hs.symm
      subst hs'
      subst hw
      refine ⟨by omega, ?_, rfl, ?_⟩
      · show s1.health = s.health
        exact hf.1
      · show s.now + 60000 ≤ s1.now + 60000
        omega

/-- Closed witness for the amended C6, at the beacon-asserting
counterexample run. -/
theorem C6_depletion_amended_witness :
    (0 : Int) ≤ 0 ∧ (0 : Int) = 0 ∧ shutdown_writes = shutdown_writes ∧
    0 + 60000 ≤ 60130 :=
  C6_depletion_amended
    ⟨(fun _ => false), (fun _ => false), (fun t => decide (50 ≤ t)), (fun _ => 25)⟩
    2 1 ⟨0, 5, 0, 0, 0⟩ ⟨0, 5, 0, 60130, 3⟩ shutdown_writes (by rfl)

/-! ### Advanced-mode number entry (C8, C9) -/

theorem IncChain.append (incFn : Int → Int) {v : Int} {l m : List (Nat × Int)}
    (h1 : IncChain incFn v l)
    (h2 : IncChain incFn (l.foldl (fun _ p => p.2) v) m) :
    IncChain incFn v (l ++ m) := by
  induction l generalizing v with
  | nil => simpa using h2
  | cons x xs ih =>
    obtain ⟨hx, hxs⟩ := h1
    exact ⟨hx, ih hxs (by simpa using h2)⟩

theorem poll_true_now (sig : Nat → Bool) (cost : Nat → Nat) (t k : Nat)
    (h : (poll sig cost t k).1 = true) :
    (poll sig cost t k).2.1 = t + cost k + 55 := by
  unfold poll button_is_pressed at *
  by_cases hr : sig (t + cost k)
  · simp [hr]
  · simp [hr] at h

theorem number_entry_hold_chain (e : Env) (incFn : Int → Int) (bdt : Nat)
    (fuel : Nat) :
    ∀ s s' tr, number_entry_hold e incFn bdt fuel s = some (s', tr) →
      IncChain incFn s.value tr ∧
      s'.value = tr.foldl (fun _ p => p.2) s.value ∧
      (∀ p ∈ tr, bdt + 1000 < p.1) := by
  induction fuel with
  | zero =>
    intro s s' tr h
    simp [number_entry_hold] at h
  | succ n ih =>
    intro s s' tr h
    rw [number_entry_hold] at h
    by_cases hp : (poll e.fire e.cost s.now s.k).1 = true
    · rw [if_pos hp] at h
      by_cases hth : bdt + 1000 < (poll e.fire e.cost s.now s.k).2.1
      · rw [if_pos hth] at h
        simp only at h
        cases hrec : number_entry_hold e incFn bdt n
            ⟨incFn s.value, (poll e.fire e.cost s.now s.k).2.1 + 100,
             (poll e.fire e.cost s.now s.k).2.2⟩ with
        | none => rw [hrec] at h; cases h
        | some pr =>
          obtain ⟨s2, tr2⟩ := pr
          rw [hrec] at h
          injection h with h
          injection h with hs htr
          subst hs
          subst htr
          have hr := ih _ _ _ hrec
          refine ⟨⟨rfl, hr.1⟩, by simpa using hr.2.1, ?_⟩
          intro p hp2
          rcases List.mem_cons.mp hp2 with rfl | hp2
          · exact hth
          · exact hr.2.2 p hp2
      · rw [if_neg hth] at h
        have hr := ih _ _ _ h
        simpa using hr
    · rw [if_neg hp] at h
      injection h with h
      injection h with hs htr
      subst hs
      subst htr
      exact ⟨trivial, by simp, by intro p hp2; cases hp2⟩

theorem number_entry_hold_fast (e : Env) (hc0 : ∀ j, e.cost j = 0)
    (incFn : Int → Int) (bdt : Nat) (fuel : Nat) :
    ∀ s s' tr t0, number_entry_hold e incFn bdt fuel s = some (s', tr) →
      s.now = t0 + 100 → bdt + 1000 < t0 →
      GapsFrom t0 tr := by
  induction fuel with
  | zero =>
    intro s s' tr t0 h
    simp [number_entry_hold] at h
  | succ n ih =>
    intro s s' tr t0 h hnow hbdt
    rw [number_entry_hold] at h
    have hck := hc0 s.k
    by_cases hp : (poll e.fire e.cost s.now s.k).1 = true
    · rw [if_pos hp] at h
      have hval : (poll e.fire e.cost s.now s.k).2.1 = t0 + 155 := by
        rw [poll_true_now e.fire e.cost s.now s.k hp]
        omega
      have hth : bdt + 1000 < (poll e.fire e.cost s.now s.k).2.1 := by
        rw [hval]; omega
      rw [if_pos hth] at h
      simp only at h
      cases hrec : number_entry_hold e incFn bdt n
          ⟨incFn s.value, (poll e.fire e.cost s.now s.k).2.1 + 100,
           (poll e.fire e.cost s.now s.k).2.2⟩ with
      | none => rw [hrec] at h; cases h
      | some pr =>
        obtain ⟨s2, tr2⟩ := pr
        rw [hrec] at h
        injection h with h
        injection h with hs htr
        subst hs
        subst htr
        refine ⟨hval, ?_⟩
        rw [hval]
        exact ih _ _ _ (t0 + 155) hrec (by simp [hval]) (by omega)
    · rw [if_neg hp] at h
      injection h with h
      injection h with hs htr
      subst hs
      subst htr
      trivial

theorem number_entry_loop_chain (e : Env) (incFn : Int → Int) (fuel : Nat) :
    ∀ s s' tr, number_entry_loop e incFn fuel s = some (s', tr) →
      IncChain incFn s.value tr := by
  induction fuel with
  | zero =>
    intro s s' tr h
    simp [number_entry_loop] at h
  | succ n ih =>
    intro s s' tr h
    rw [number_entry_loop] at h
    set t1 := (poll e.shield e.cost s.now s.k).2.1 with ht1
    set k1 := (poll e.shield e.cost s.now s.k).2.2 with hk1
    by_cases hs1 : (poll e.shield e.cost s.now s.k).1 = true
    · rw [if_pos hs1] at h
      injection h with h
      injection h with hs htr
      subst htr
      trivial
    · rw [if_neg hs1] at h
      set t2 := (poll e.fire e.cost t1 k1).2.1 with ht2
      set k2 := (poll e.fire e.cost t1 k1).2.2 with hk2
      by_cases hf : (poll e.fire e.cost t1 k1).1 = true
      · rw [if_pos hf] at h
        simp only at h
        cases hhold : number_entry_hold e incFn t2 n ⟨incFn s.value, t2, k2⟩ with
        | none => rw [hhold] at h; cases h
        | some pr4 =>
          obtain ⟨s4, trH⟩ := pr4
          rw [hhold] at h
          simp only at h
          cases hloop : number_entry_loop e incFn n s4 with
          | none => rw [hloop] at h; cases h
          | some pr5 =>
            obtain ⟨s5, tr5⟩ := pr5
            rw [hloop] at h
            injection h with h
            injection h with hs htr
            subst hs
            subst htr
            have hhc := number_entry_hold_chain e incFn t2 n _ _ _ hhold
            have hlc := ih _ _ _ hloop
            refine ⟨rfl, ?_⟩
            refine IncChain.append incFn hhc.1 ?_
            have hv : s4.value = trH.foldl (fun _ p => p.2) (incFn s.value) := by
              simpa using hhc.2.1
            rw [← hv]
            exact hlc
      · rw [if_neg hf] at h
        have hr := ih _ _ _ h
        simpa using hr

/-- **C8 (counterexample).**  With zero loop overhead, Fire held from
boot to 1500 ms, and the hold threshold anchored at 0, the long-press
hold loop produces increments at 1050 ms, 1205 ms and 1360 ms: the
auto-repeat period is 155 ms (the explicit `delay(100)` plus the 55 ms
debounce settle of the next `button_is_pressed` call), not the claimed
100 ms. -/
theorem C8_counterexample :
    number_entry_hold
      ⟨(fun t => decide (t < 1500)), (fun _ => false), (fun _ => false), (fun _ => 0)⟩
      inc_health 0 25 ⟨30, 60, 0⟩ =
      some (⟨33, 1515, 21⟩, [(1050, 31), (1205, 32), (1360, 33)]) ∧
    1205 - 1050 = 155 ∧ (155 : Nat) ≠ 100 :=
  ⟨rfl, rfl, by decide⟩

/-- **C8 (amended).**  During advanced-mode number entry: (1)–(2) each
recorded increment of a phase (health phase with `inc_health`, shield
phase with `inc_shield`) steps the counter by exactly the wrap-increment
function of the previous value; (3) that function adds exactly 1 below
99 and wraps 99 to 1; (4) while Fire is held past the 1 s initial hold
threshold, increments auto-repeat every **155 ms** under zero loop
overhead — the 100 ms delay plus the 55 ms debounce settle of the next
poll — each strictly after `button_down_time + 1000`; the claimed
100 ms period is wrong, everything else in the claim holds (each
increment also re-renders: the trace is the sequence of renders). -/
theorem C8_number_entry_increment_amended :
    (∀ (e : Env) (fuel : Nat) (s s' : AM) (tr : List (Nat × Int)),
      number_entry_loop e inc_health fuel s = some (s', tr) →
      IncChain inc_health s.value tr) ∧
    (∀ (e : Env) (fuel : Nat) (s s' : AM) (tr : List (Nat × Int)),
      number_entry_loop e inc_shield fuel s = some (s', tr) →
      IncChain inc_shield s.value tr) ∧
    (∀ v : Int, (v < 99 → inc_health v = v + 1 ∧ inc_shield v = v + 1) ∧
      (¬ v < 99 → inc_health v = 1 ∧ inc_shield v = 1)) ∧
    (∀ (e : Env) (incFn : Int → Int) (bdt fuel : Nat) (s s' : AM)
       (tr : List (Nat × Int)) (t0 : Nat),
      (∀ j, e.cost j = 0) →
      number_entry_hold e incFn bdt fuel s = some (s', tr) →
      s.now = t0 + 100 → bdt + 1000 < t0 →
      GapsFrom t0 tr ∧ (∀ p ∈ tr, bdt + 1000 < p.1)) := by
  refine ⟨?_, ?_, ?_, ?_⟩
  · intro e fuel s s' tr h
    exact number_entry_loop_chain e inc_health fuel _ _ _ h
  · intro e fuel s s' tr h
    exact number_entry_loop_chain e inc_shield fuel _ _ _ h
  · intro v
    constructor
    · intro hv
      unfold inc_health inc_shield
      rw [if_pos hv]
      exact ⟨rfl, rfl⟩
    · intro hv
      unfold inc_health inc_shield
      rw [if_neg hv]
      exact ⟨rfl, rfl⟩
  · intro e incFn bdt fuel s s' tr t0 hc0 h hnow hbdt
    refine ⟨number_entry_hold_fast e hc0 incFn bdt fuel _ _ _ _ h hnow hbdt, ?_⟩
    exact (number_entry_hold_chain e incFn bdt fuel _ _ _ h).2.2

/-- Closed witness for the amended C8: an immediate Shield press yields
the empty increment chain; the wrap-increment adds 1 at 98; a hold-loop
run entered past the threshold (anchor 0, previous increment at
`t0 = 1050`) produces `[(1205, 31), (1360, 32)]` — 155 ms gaps, all past
the 1 s threshold. -/
theorem C8_number_entry_increment_amended_witness :
    IncChain inc_health 30 [] ∧
    (inc_health 98 = 99 ∧ inc_shield 98 = 99) ∧
    GapsFrom 1050 [(1205, 31), (1360, 32)] ∧
    (∀ p ∈ ([(1205, 31), (1360, 32)] : List (Nat × Int)), 0 + 1000 < p.1) := by
  refine ⟨?_, ?_, ?_, ?_⟩
  · exact C8_number_entry_increment_amended.1
      ⟨(fun _ => false), (fun _ => true), (fun _ => false), (fun _ => 0)⟩
      1 ⟨30, 0, 0⟩ ⟨30, 55, 1⟩ [] (by rfl)
  · exact (C8_number_entry_increment_amended.2.2.1 98).1 (by norm_num)
  · exact (C8_number_entry_increment_amended.2.2.2
      ⟨(fun t => decide (t < 1500)), (fun _ => false), (fun _ => false), (fun _ => 0)⟩
      inc_health 0 10 ⟨30, 1150, 0⟩ ⟨32, 1515, 3⟩
      [(1205, 31), (1360, 32)] 1050
      (fun _ => rfl) (by rfl) (by rfl) (by norm_num)).1
  · exact (C8_number_entry_increment_amended.2.2.2
      ⟨(fun t => decide (t < 1500)), (fun _ => false), (fun _ => false), (fun _ => 0)⟩
      inc_health 0 10 ⟨30, 1150, 0⟩ ⟨32, 1515, 3⟩
      [(1205, 31), (1360, 32)] 1050
      (fun _ => rfl) (by rfl) (by rfl) (by norm_num)).2

/-- **C9.** `advanced_mode` enforces no inactivity timeout: whatever the
inputs, the per-poll overheads (and hence however much wall-clock time
elapses) and however long it runs, a completed run never produces the
PoweredDown outcome — `shutdown_now` is unreachable from the
number-entry loops (the `timeout_max = 110000` set at mode entry, line
201, is never re-checked inside `advanced_mode`). -/
theorem C9_advanced_mode_no_timeout (e : Env) (fuel : Nat) (store : Nat → Nat)
    (health shields_remaining : Int) (now k : Nat) (r : AdvancedResult)
    (h : advanced_mode e fuel store health shields_remaining now k = some r) :
    r.is_shutdown = false := by
  rw [advanced_mode] at h
  split at h
  · exact Option.noConfusion h
  · split at h
    · exact Option.noConfusion h
    · simp only at h
      split at h
      · exact Option.noConfusion h
      · split at h
        · exact Option.noConfusion h
        · injection h with h
          subst h
          rfl

set_option maxRecDepth 40000 in
/-- Closed witness for C9: a completed advanced-mode run (Shield
pressed-and-released once per phase, no Fire press, erased store) ends
in the `done` outcome — not PoweredDown. -/
theorem C9_advanced_mode_no_timeout_witness :
    (AdvancedResult.done 30 10
      (EEPROM_write
        (EEPROM_write (fun _ => 255) ADVANCED_HEALTH_ADDRESS ((30 : Int) % 256).toNat)
        ADVANCED_SHIELD_ADDRESS ((10 : Int) % 256).toNat)
      412 192).is_shutdown = false :=
  C9_advanced_mode_no_timeout
    ⟨(fun _ => false),
     (fun t => decide (t ≤ 100 ∨ (300 ≤ t ∧ t ≤ 400))),
     (fun _ => false), (fun _ => 1)⟩
    200 (fun _ => 255) 30 10 0 0 _ (by rfl)

end LTAR



